import Mathlib

/-!
Verification development for the TRISO-particle packing and lattice-binning
core used by the notebook `examples/jupyter/triso.ipynb`.

The notebook calls `openmc.model.pack_trisos` and
`openmc.model.create_triso_lattice`; their bodies live outside the material
at hand, so the two algorithms are modelled here from the specification
(sections 4.3 and 4.4): a rejection-sampling sphere packer driven by an
explicit seeded pseudo-random stream, and a lattice binner assigning each
sphere to the cell containing its center by componentwise floor division.
Coordinates are exact rationals so every definition is executable and every
geometric predicate decidable; squared distances stand in for Euclidean
distances throughout.
-/

/-- A 3-D point / vector with exact rational coordinates. -/
structure Vec3 where
  x : ℚ
  y : ℚ
  z : ℚ
deriving DecidableEq, Repr

instance : Sub Vec3 := ⟨fun a b => ⟨a.x - b.x, a.y - b.y, a.z - b.z⟩⟩

instance : Add Vec3 := ⟨fun a b => ⟨a.x + b.x, a.y + b.y, a.z + b.z⟩⟩

theorem Vec3.sub_def (a b : Vec3) : a - b = ⟨a.x - b.x, a.y - b.y, a.z - b.z⟩ := rfl

theorem Vec3.add_def (a b : Vec3) : a + b = ⟨a.x + b.x, a.y + b.y, a.z + b.z⟩ := rfl

/-- Squared Euclidean distance between two points. -/
def dist2 (a b : Vec3) : ℚ :=
  (a.x - b.x) * (a.x - b.x) + (a.y - b.y) * (a.y - b.y) + (a.z - b.z) * (a.z - b.z)

/-- A TRISO particle as the notebook sees it: a Cell whose fill is an opaque
universe token, whose region is a sphere of the given outer radius, and whose
translation is the sphere's center. -/
structure TrisoCell (U : Type) where
  fill : U
  regionRadius : ℚ
  translation : Vec3
deriving DecidableEq, Repr

/-- The `center` attribute of a TRISO cell is its translation. -/
def TrisoCell.center {U : Type} (t : TrisoCell U) : Vec3 :=
  t.translation

/-- Error raised when the requested density or iteration budget cannot be
met; carries the sphere count actually achieved. -/
structure PackingInfeasibleError where
  achieved : Nat
deriving DecidableEq, Repr

/-- Linear congruential step for the explicit pseudo-random source
(seedable-stream interface required by the spec). -/
def lcg (s : Nat) : Nat :=
  (75 * s + 74) % 65537

/-- Map a generator state to a rational in `[0, 1)`. -/
def toUnit (s : Nat) : ℚ :=
  (s % 64 : Nat) / 64

/-- One uniform sample inside the cube-domain interior shrunk by the sphere
radius: each coordinate lies in `[-L/2 + r, L/2 - r)`. -/
def sampleVec (L r : ℚ) (s1 s2 s3 : Nat) : Vec3 :=
  ⟨-(L/2) + r + toUnit s1 * (L - 2*r),
   -(L/2) + r + toUnit s2 * (L - 2*r),
   -(L/2) + r + toUnit s3 * (L - 2*r)⟩

/-- Modelled from the spec: the candidate stream of the seeding phase, the
first `n` centers drawn from the seeded pseudo-random source, each sampled
uniformly inside the cube domain's shrunk-interior region. -/
def genCandidates (L r : ℚ) (s : Nat) : Nat → List Vec3
  | 0 => []
  | n + 1 =>
    let s1 := lcg s
    let s2 := lcg s1
    let s3 := lcg s2
    sampleVec L r s1 s2 s3 :: genCandidates L r s3 n

/-- The shrunk-interior containment region for the cube of side `L` centered
at the origin: a center here keeps the whole sphere of radius `r` inside. -/
def inShrunkCube (L r : ℚ) (c : Vec3) : Prop :=
  -(L/2) + r ≤ c.x ∧ c.x ≤ L/2 - r ∧
  -(L/2) + r ≤ c.y ∧ c.y ≤ L/2 - r ∧
  -(L/2) + r ≤ c.z ∧ c.z ≤ L/2 - r

instance (L r : ℚ) (c : Vec3) : Decidable (inShrunkCube L r c) := by
  unfold inShrunkCube; infer_instance

/-- The neighbor query's acceptance criterion: no already placed sphere lies
within `2·r` of the candidate (squared distances compared exactly). -/
def farFromAll (r : ℚ) (placed : List Vec3) (c : Vec3) : Prop :=
  ∀ p ∈ placed, (2*r) * (2*r) ≤ dist2 p c

instance (r : ℚ) (placed : List Vec3) (c : Vec3) : Decidable (farFromAll r placed c) := by
  unfold farFromAll; infer_instance

/-- Modelled from the spec: a candidate center is accepted only if it lies in
the domain's shrunk-interior region and `queryNeighbors` reports no sphere
within `2·radius`. -/
def acceptCandidate (L r : ℚ) (placed : List Vec3) (c : Vec3) : Prop :=
  inShrunkCube L r c ∧ farFromAll r placed c

instance (L r : ℚ) (placed : List Vec3) (c : Vec3) :
    Decidable (acceptCandidate L r placed c) := by
  unfold acceptCandidate; infer_instance

/-- Modelled from the spec: the insertion loop of `SpherePacker.pack`.
Candidates are tried in stream order; an accepted center is pushed onto the
accumulator; the loop stops as soon as the target count is reached and fails
with `PackingInfeasibleError` (carrying the achieved count) once the attempt
budget is exhausted below target. -/
def packLoop (L r : ℚ) (target : Nat) :
    List Vec3 → List Vec3 → Except PackingInfeasibleError (List Vec3)
  | [], placed =>
    if target ≤ placed.length then .ok placed.reverse
    else .error ⟨placed.length⟩
  | c :: rest, placed =>
    if target ≤ placed.length then .ok placed.reverse
    else if acceptCandidate L r placed c then packLoop L r target rest (c :: placed)
    else packLoop L r target rest placed

/-- Rational stand-in for π, used only to derive the target sphere count
from the packing fraction. -/
def piRat : ℚ := 355 / 113

/-- Volume of one sphere of radius `r` (with the rational π). -/
def sphereVolume (r : ℚ) : ℚ := 4/3 * piRat * r^3

/-- Volume of the cube domain of side `L`. -/
def domainVolume (L : ℚ) : ℚ := L^3

/-- Target sphere count `targetFraction · domainVolume / sphereVolume`,
rounded down. -/
def targetCount (L r fraction : ℚ) : Nat :=
  (Int.floor (fraction * domainVolume L / sphereVolume r)).toNat

/-- Modelled from the spec: `SpherePacker.pack` for the cube domain. The body
of `openmc.model.pack_trisos` is absent from the material (the notebook only
calls it), so the packer is rendered from spec section 4.3: it fails at once
with `PackingInfeasibleError` when the requested fraction exceeds the ~0.6
theoretical maximum, and otherwise runs the seeded rejection loop over
`maxAttempts` candidates. The spec leaves the relaxation schedule
unspecified (a configuration surface), so a stalled run surfaces
`PackingInfeasibleError` with the achieved count rather than displacing
spheres. -/
def packCenters (seed : Nat) (L r fraction : ℚ) (maxAttempts : Nat) :
    Except PackingInfeasibleError (List Vec3) :=
  if 3/5 < fraction then .error ⟨0⟩
  else packLoop L r (targetCount L r fraction) (genCandidates L r seed maxAttempts) []

/-- Modelled from the spec: `openmc.model.pack_trisos`. Every packed center
becomes a Cell carrying the single fill universe, the outer radius as its
spherical region, and the center as its translation. -/
def pack_trisos {U : Type} (fillU : U) (seed : Nat) (L r fraction : ℚ)
    (maxAttempts : Nat) : Except PackingInfeasibleError (List (TrisoCell U)) :=
  (packCenters seed L r fraction maxAttempts).map
    (List.map (fun c => ⟨fillU, r, c⟩))

/-- Error raised when the lattice does not cover the domain the packing was
generated in. -/
inductive OutOfLatticeBoundsError where
  | mk
deriving DecidableEq, Repr

/-- The lattice cell index of a center: componentwise floor division of
`center - lowerLeft` by `pitch`. -/
def cellIndex (ll pitch c : Vec3) : ℤ × ℤ × ℤ :=
  (Int.floor ((c.x - ll.x) / pitch.x),
   Int.floor ((c.y - ll.y) / pitch.y),
   Int.floor ((c.z - ll.z) / pitch.z))

/-- Whether a cell index lies in `[0, shape)` on every axis. -/
def idxInRange (shape : Nat × Nat × Nat) (idx : ℤ × ℤ × ℤ) : Prop :=
  0 ≤ idx.1 ∧ idx.1 < (shape.1 : ℤ) ∧
  0 ≤ idx.2.1 ∧ idx.2.1 < (shape.2.1 : ℤ) ∧
  0 ≤ idx.2.2 ∧ idx.2.2 < (shape.2.2 : ℤ)

instance (shape : Nat × Nat × Nat) (idx : ℤ × ℤ × ℤ) : Decidable (idxInRange shape idx) := by
  unfold idxInRange; infer_instance

/-- Absolute position of a cell's lower-left corner:
`lowerLeft + index ⊙ pitch`. -/
def cellShift (ll pitch : Vec3) (idx : ℤ × ℤ × ℤ) : Vec3 :=
  ⟨ll.x + idx.1 * pitch.x, ll.y + idx.2.1 * pitch.y, ll.z + idx.2.2 * pitch.z⟩

/-- Translate a TRISO particle into a cell's local frame:
`localCenter = center − (lowerLeft + index ⊙ pitch)`. -/
def localize {U : Type} (ll pitch : Vec3) (idx : ℤ × ℤ × ℤ) (t : TrisoCell U) :
    TrisoCell U :=
  { t with translation := t.translation - cellShift ll pitch idx }

/-- The sub-list of particles whose center's cell index is `idx`, each
translated into that cell's local frame, in input order. -/
def binCell {U : Type} (ll pitch : Vec3) (idx : ℤ × ℤ × ℤ) :
    List (TrisoCell U) → List (TrisoCell U)
  | [] => []
  | t :: ts =>
    if cellIndex ll pitch t.translation = idx
    then localize ll pitch idx t :: binCell ll pitch idx ts
    else binCell ll pitch idx ts

/-- All lattice cell indices of a given shape, row-major. -/
def allIndices (shape : Nat × Nat × Nat) : List (ℤ × ℤ × ℤ) :=
  (List.range shape.1).flatMap (fun i =>
    (List.range shape.2.1).flatMap (fun j =>
      (List.range shape.2.2).map (fun k : ℕ => ((i : ℤ), (j : ℤ), (k : ℤ)))))

/-- One cell of a lattice assignment: its index, the local arrangement of the
spheres whose center lies in it, and the background fill token occupying the
remaining volume (the whole cell when no sphere landed in it). -/
structure CellEntry (U : Type) where
  index : ℤ × ℤ × ℤ
  spheres : List (TrisoCell U)
  background : U
deriving DecidableEq, Repr

/-- A lattice assignment: the cell-count vector and one entry per lattice
cell index. -/
structure LatticeAssignment (U : Type) where
  shape : Nat × Nat × Nat
  cells : List (CellEntry U)
deriving DecidableEq, Repr

/-- Modelled from the spec: `openmc.model.create_triso_lattice`
(`LatticeBinner.bin`). The body is absent from the material (the notebook
only calls it), so it is rendered from spec section 4.4: each sphere's cell
index is the componentwise floor division of `center − lowerLeft` by
`pitch`; if any index falls outside `[0, shape)` on any axis the call fails
with `OutOfLatticeBoundsError` and produces no assignment; otherwise every
cell index receives an entry holding its center-owned spheres in local
coordinates over the background fill. -/
def create_triso_lattice {U : Type} (trisos : List (TrisoCell U))
    (ll pitch : Vec3) (shape : Nat × Nat × Nat) (bg : U) :
    Except OutOfLatticeBoundsError (LatticeAssignment U) :=
  if ∀ t ∈ trisos, idxInRange shape (cellIndex ll pitch t.translation) then
    .ok ⟨shape, (allIndices shape).map (fun idx => ⟨idx, binCell ll pitch idx trisos, bg⟩)⟩
  else .error .mk

/-- Extract the sphere list of a successful result (empty on failure); used
only to name concrete runs in closed statements. -/
def okSpheres {E : Type} {A : Type} : Except E (List A) → List A
  | .ok l => l
  | .error _ => []

/-- Pairwise separation of a center list: every two distinct entries are at
least one packing diameter apart (squared distances compared exactly). -/
def sepList (r : ℚ) (l : List Vec3) : Prop :=
  l.Pairwise (fun a b => (2*r) * (2*r) ≤ dist2 a b)

/-- A point of the cube domain of side `L` centered at the origin. -/
def inCube (L : ℚ) (p : Vec3) : Prop :=
  -(L/2) ≤ p.x ∧ p.x ≤ L/2 ∧ -(L/2) ≤ p.y ∧ p.y ≤ L/2 ∧ -(L/2) ≤ p.z ∧ p.z ≤ L/2

/-- Clamp a coordinate into a closed interval. -/
def clampQ (v lo hi : ℚ) : ℚ := max lo (min v hi)

/-- The point of a lattice cell's box nearest to a given point. -/
def nearestPointInCell (ll pitch : Vec3) (idx : ℤ × ℤ × ℤ) (c : Vec3) : Vec3 :=
  ⟨clampQ c.x (ll.x + idx.1 * pitch.x) (ll.x + (idx.1 + 1) * pitch.x),
   clampQ c.y (ll.y + idx.2.1 * pitch.y) (ll.y + (idx.2.1 + 1) * pitch.y),
   clampQ c.z (ll.z + idx.2.2 * pitch.z) (ll.z + (idx.2.2 + 1) * pitch.z)⟩

/-- A sphere of radius `r` centered at `c` geometrically intersects the box
of lattice cell `idx` exactly when the cell's nearest point to `c` is within
`r` of `c`. -/
def sphereIntersectsCell (ll pitch : Vec3) (idx : ℤ × ℤ × ℤ) (r : ℚ) (c : Vec3) : Prop :=
  dist2 (nearestPointInCell ll pitch idx c) c ≤ r * r

/-- First candidate of the demonstration run (seed 0, cube side 1, radius
1/8): accepted. -/
def demoC1 : Vec3 := ⟨-33/128, 9/32, 9/64⟩

/-- Second candidate of the demonstration run: rejected, it lies within one
packing diameter of the first. -/
def demoC2 : Vec3 := ⟨-27/128, 27/256, 75/256⟩

/-- Third candidate of the demonstration run: accepted. -/
def demoC3 : Vec3 := ⟨45/256, -3/8, -3/8⟩

/-- The spheres produced by the demonstration packing run. -/
def demoTrisos : List (TrisoCell ℕ) :=
  [⟨0, 1/8, demoC1⟩, ⟨0, 1/8, demoC3⟩]

/-- Lower-left corner of the demonstration lattice. -/
def demoLL : Vec3 := ⟨-1/2, -1/2, -1/2⟩

/-- Pitch of the demonstration lattice. -/
def demoPitch : Vec3 := ⟨1/2, 1/2, 1/2⟩

/-- The lattice assignment of the demonstration run: 2×2×2 cells over the
unit cube, background fill token 7. -/
def demoAssign : LatticeAssignment ℕ :=
  ⟨(2, 2, 2),
   [⟨(0, 0, 0), [], 7⟩,
    ⟨(0, 0, 1), [], 7⟩,
    ⟨(0, 1, 0), [], 7⟩,
    ⟨(0, 1, 1), [⟨0, 1/8, ⟨31/128, 9/32, 9/64⟩⟩], 7⟩,
    ⟨(1, 0, 0), [⟨0, 1/8, ⟨45/256, 1/8, 1/8⟩⟩], 7⟩,
    ⟨(1, 0, 1), [], 7⟩,
    ⟨(1, 1, 0), [], 7⟩,
    ⟨(1, 1, 1), [], 7⟩]⟩

/-- A sphere that protrudes across the boundary between two lattice cells:
center (9/10, 1/2, 1/2) with radius 1/5 in a 2×1×1 lattice of unit pitch. -/
def cexTriso : TrisoCell ℕ := ⟨0, 1/5, ⟨9/10, 1/2, 1/2⟩⟩

/-- Origin corner for the boundary-crossing example lattice. -/
def cexLL : Vec3 := ⟨0, 0, 0⟩

/-- Unit pitch for the boundary-crossing example lattice. -/
def cexPitch : Vec3 := ⟨1, 1, 1⟩

/-- A sphere whose center lies outside a 1×1×1 lattice starting at the
origin; its cell index (2, 0, 0) is out of range. -/
def oobTriso : TrisoCell ℕ := ⟨0, 1/8, ⟨5/2, 1/2, 1/2⟩⟩

/-! ### Basic geometry lemmas -/

theorem dist2_comm (a b : Vec3) : dist2 a b = dist2 b a := by
  unfold dist2; ring

theorem sq_le_dist2_x (p c : Vec3) : (p.x - c.x) * (p.x - c.x) ≤ dist2 p c := by
  unfold dist2
  nlinarith [mul_self_nonneg (p.y - c.y), mul_self_nonneg (p.z - c.z)]

theorem sq_le_dist2_y (p c : Vec3) : (p.y - c.y) * (p.y - c.y) ≤ dist2 p c := by
  unfold dist2
  nlinarith [mul_self_nonneg (p.x - c.x), mul_self_nonneg (p.z - c.z)]

theorem sq_le_dist2_z (p c : Vec3) : (p.z - c.z) * (p.z - c.z) ≤ dist2 p c := by
  unfold dist2
  nlinarith [mul_self_nonneg (p.x - c.x), mul_self_nonneg (p.y - c.y)]

theorem coord_bound (lo hi v w r : ℚ) (hr : 0 ≤ r) (h1 : lo + r ≤ v) (h2 : v ≤ hi - r)
    (hsq : (w - v) * (w - v) ≤ r * r) : lo ≤ w ∧ w ≤ hi := by
  constructor <;> nlinarith

/-! ### Invariants of the packing loop -/

theorem packLoop_ok_inv (L r : ℚ) (target : Nat) :
    ∀ (cands placed res : List Vec3),
      packLoop L r target cands placed = .ok res →
      sepList r placed → (∀ c ∈ placed, inShrunkCube L r c) → placed.length ≤ target →
      sepList r res ∧ (∀ c ∈ res, inShrunkCube L r c) ∧ res.length = target := by
  intro cands
  induction cands with
  | nil =>
    intro placed res h hsep hin hlen
    simp only [packLoop] at h
    split at h
    · rename_i hge
      cases h
      refine ⟨?_, ?_, ?_⟩
      · exact List.pairwise_reverse.mpr (hsep.imp (fun hab => by rwa [dist2_comm]))
      · intro c hc; exact hin c (List.mem_reverse.mp hc)
      · simp only [List.length_reverse]; omega
    · cases h
  | cons c rest ih =>
    intro placed res h hsep hin hlen
    simp only [packLoop] at h
    split at h
    · rename_i hge
      cases h
      refine ⟨?_, ?_, ?_⟩
      · exact List.pairwise_reverse.mpr (hsep.imp (fun hab => by rwa [dist2_comm]))
      · intro x hx; exact hin x (List.mem_reverse.mp hx)
      · simp only [List.length_reverse]; omega
    · rename_i hlt
      split at h
      · rename_i hacc
        refine ih (c :: placed) res h ?_ ?_ ?_
        · exact List.pairwise_cons.mpr
            ⟨fun p hp => by rw [dist2_comm]; exact hacc.2 p hp, hsep⟩
        · intro x hx
          rcases List.mem_cons.mp hx with hx | hx
          · subst hx; exact hacc.1
          · exact hin x hx
        · simp only [List.length_cons]; omega
      · exact ih placed res h hsep hin hlen

theorem packLoop_error_inv (L r : ℚ) (target : Nat) :
    ∀ (cands placed : List Vec3) (e : PackingInfeasibleError),
      packLoop L r target cands placed = .error e →
      placed.length ≤ target → e.achieved < target := by
  intro cands
  induction cands with
  | nil =>
    intro placed e h hlen
    simp only [packLoop] at h
    split at h
    · cases h
    · rename_i hlt; cases h; simp only; omega
  | cons c rest ih =>
    intro placed e h hlen
    simp only [packLoop] at h
    split at h
    · cases h
    · rename_i hlt
      split at h
      · exact ih (c :: placed) e h (by simp only [List.length_cons]; omega)
      · exact ih placed e h hlen

theorem packCenters_ok (seed : Nat) (L r fraction : ℚ) (maxAttempts : Nat)
    (res : List Vec3) (h : packCenters seed L r fraction maxAttempts = .ok res) :
    sepList r res ∧ (∀ c ∈ res, inShrunkCube L r c) ∧
      res.length = targetCount L r fraction := by
  unfold packCenters at h
  split at h
  · cases h
  · exact packLoop_ok_inv L r (targetCount L r fraction) _ [] res h
      List.Pairwise.nil (by intro c hc; cases hc) (Nat.zero_le _)

theorem packCenters_error (seed : Nat) (L r fraction : ℚ) (maxAttempts : Nat)
    (e : PackingInfeasibleError) (hf : fraction ≤ 3/5)
    (h : packCenters seed L r fraction maxAttempts = .error e) :
    e.achieved < targetCount L r fraction := by
  unfold packCenters at h
  split at h
  · rename_i hcond; exact absurd hcond (not_lt.mpr hf)
  · exact packLoop_error_inv L r (targetCount L r fraction) _ [] e h (Nat.zero_le _)

theorem packCenters_highFraction (seed : Nat) (L r fraction : ℚ) (maxAttempts : Nat)
    (h : 3/5 < fraction) : packCenters seed L r fraction maxAttempts = .error ⟨0⟩ := by
  unfold packCenters
  rw [if_pos h]

theorem pack_trisos_ok_elim {U : Type} (fillU : U) (seed : Nat) (L r fraction : ℚ)
    (maxAttempts : Nat) (ts : List (TrisoCell U))
    (h : pack_trisos fillU seed L r fraction maxAttempts = .ok ts) :
    ∃ cs, packCenters seed L r fraction maxAttempts = .ok cs ∧
      ts = cs.map (fun c => ⟨fillU, r, c⟩) := by
  unfold pack_trisos at h
  cases hp : packCenters seed L r fraction maxAttempts with
  | ok cs =>
    rw [hp] at h
    refine ⟨cs, rfl, ?_⟩
    simpa [Except.map] using h.symm
  | error e =>
    rw [hp] at h
    simp [Except.map] at h

theorem pack_trisos_error_elim {U : Type} (fillU : U) (seed : Nat) (L r fraction : ℚ)
    (maxAttempts : Nat) (e : PackingInfeasibleError)
    (h : pack_trisos fillU seed L r fraction maxAttempts = .error e) :
    packCenters seed L r fraction maxAttempts = .error e := by
  unfold pack_trisos at h
  cases hp : packCenters seed L r fraction maxAttempts with
  | ok cs => rw [hp] at h; simp [Except.map] at h
  | error e2 => rw [hp] at h; simp [Except.map] at h; rw [h]

/-! ### Concrete demonstration run of the packer -/

theorem demoTargetCount : targetCount 1 (1/8) (1/50) = 2 := by
  norm_num [targetCount, domainVolume, sphereVolume, piRat]
  rfl

theorem demoCands : genCandidates 1 (1/8) 0 3 = [demoC1, demoC2, demoC3] := by
  norm_num [genCandidates, lcg, toUnit, sampleVec, demoC1, demoC2, demoC3]

theorem demoLoop : packLoop 1 (1/8) 2 [demoC1, demoC2, demoC3] [] = .ok [demoC1, demoC3] := by
  simp only [packLoop]
  norm_num [acceptCandidate, inShrunkCube, farFromAll, dist2, demoC1, demoC2, demoC3]

theorem demoPackCenters : packCenters 0 1 (1/8) (1/50) 3 = .ok [demoC1, demoC3] := by
  unfold packCenters
  rw [if_neg (by norm_num), demoTargetCount, demoCands, demoLoop]

theorem demoPack_eq : pack_trisos (0 : ℕ) 0 1 (1/8) (1/50) 3 = .ok demoTrisos := by
  unfold pack_trisos
  rw [demoPackCenters]
  rfl

/-! ### Claims about the packer -/

/-- C1: every pair of distinct spheres in a packing result returned by
`pack_trisos` has centers at least one packing diameter apart — the squared
distance between any two accepted centers is at least `(2·radius)²` — for
every seed, domain, attempt budget, and density target. -/
theorem pack_trisos_no_overlap {U : Type} (fillU : U) (seed : Nat) (L r fraction : ℚ)
    (maxAttempts : Nat) (ts : List (TrisoCell U))
    (h : pack_trisos fillU seed L r fraction maxAttempts = .ok ts) :
    ts.Pairwise (fun a b => (2*r) * (2*r) ≤ dist2 a.center b.center) := by
  obtain ⟨cs, hcs, rfl⟩ := pack_trisos_ok_elim fillU seed L r fraction maxAttempts ts h
  exact ((packCenters_ok seed L r fraction maxAttempts cs hcs).1).map _
    (fun a b hab => by simpa [TrisoCell.center] using hab)

/-- Witness for C1: the demonstration run (seed 0, cube side 1, radius 1/8,
fraction 1/50) yields two spheres whose centers are at least one diameter
apart. -/
theorem pack_trisos_no_overlap_witness :
    demoTrisos.Pairwise (fun a b => (2*(1/8 : ℚ)) * (2*(1/8)) ≤ dist2 a.center b.center) :=
  pack_trisos_no_overlap (0 : ℕ) 0 1 (1/8) (1/50) 3 demoTrisos demoPack_eq

/-- C2: every sphere of a packing result keeps its full extent inside the
cube domain: each accepted center lies within `[-L/2 + r, L/2 - r]` on every
axis, and consequently every point within distance `r` of the center lies in
the cube. -/
theorem pack_trisos_in_domain {U : Type} (fillU : U) (seed : Nat) (L r fraction : ℚ)
    (maxAttempts : Nat) (ts : List (TrisoCell U))
    (h : pack_trisos fillU seed L r fraction maxAttempts = .ok ts) (hr : 0 ≤ r) :
    ∀ t ∈ ts, inShrunkCube L r t.center ∧
      ∀ p : Vec3, dist2 p t.center ≤ r * r → inCube L p := by
  obtain ⟨cs, hcs, rfl⟩ := pack_trisos_ok_elim fillU seed L r fraction maxAttempts ts h
  have hin := (packCenters_ok seed L r fraction maxAttempts cs hcs).2.1
  intro t ht
  rw [List.mem_map] at ht
  obtain ⟨c, hc, rfl⟩ := ht
  have hsc : inShrunkCube L r c := hin c hc
  refine ⟨hsc, ?_⟩
  intro p hp
  obtain ⟨h1, h2, h3, h4, h5, h6⟩ := hsc
  have hx := le_trans (sq_le_dist2_x p c) hp
  have hy := le_trans (sq_le_dist2_y p c) hp
  have hz := le_trans (sq_le_dist2_z p c) hp
  have bx := coord_bound (-(L/2)) (L/2) c.x p.x r hr (by linarith) (by linarith) hx
  have by2 := coord_bound (-(L/2)) (L/2) c.y p.y r hr (by linarith) (by linarith) hy
  have bz := coord_bound (-(L/2)) (L/2) c.z p.z r hr (by linarith) (by linarith) hz
  exact ⟨bx.1, bx.2, by2.1, by2.2, bz.1, bz.2⟩

/-- Witness for C2: the first demonstration sphere's center lies in the
shrunk interior, and the point one radius above it on the x axis still lies
in the unit cube. -/
theorem pack_trisos_in_domain_witness :
    inShrunkCube 1 (1/8) (⟨0, 1/8, demoC1⟩ : TrisoCell ℕ).center ∧
      inCube 1 ⟨demoC1.x + 1/8, demoC1.y, demoC1.z⟩ := by
  have H := pack_trisos_in_domain (0 : ℕ) 0 1 (1/8) (1/50) 3 demoTrisos demoPack_eq
    (by norm_num) ⟨0, 1/8, demoC1⟩ (by simp [demoTrisos])
  exact ⟨H.1, H.2 ⟨demoC1.x + 1/8, demoC1.y, demoC1.z⟩
    (by norm_num [dist2, TrisoCell.center, demoC1])⟩

/-- C4: `pack_trisos` fails with `PackingInfeasibleError` whenever the target
fraction exceeds the ~0.6 theoretical maximum; any failure below that
threshold carries an achieved count strictly below the target count derived
from `targetFraction · domainVolume / sphereVolume`; and a successful result
is never partial: it holds exactly the target count of spheres. -/
theorem pack_trisos_failure {U : Type} (fillU : U) (seed : Nat) (L r fraction : ℚ)
    (maxAttempts : Nat) :
    (3/5 < fraction → pack_trisos fillU seed L r fraction maxAttempts = .error ⟨0⟩) ∧
    (∀ e, fraction ≤ 3/5 → pack_trisos fillU seed L r fraction maxAttempts = .error e →
      e.achieved < targetCount L r fraction) ∧
    (∀ ts, pack_trisos fillU seed L r fraction maxAttempts = .ok ts →
      ts.length = targetCount L r fraction) := by
  refine ⟨?_, ?_, ?_⟩
  · intro hf
    unfold pack_trisos
    rw [packCenters_highFraction seed L r fraction maxAttempts hf]
    rfl
  · intro e hf he
    exact packCenters_error seed L r fraction maxAttempts e hf
      (pack_trisos_error_elim fillU seed L r fraction maxAttempts e he)
  · intro ts hts
    obtain ⟨cs, hcs, rfl⟩ := pack_trisos_ok_elim fillU seed L r fraction maxAttempts ts hts
    rw [List.length_map]
    exact (packCenters_ok seed L r fraction maxAttempts cs hcs).2.2

/-- Witness for C4: requesting a 70% packing fraction fails immediately with
`PackingInfeasibleError` reporting zero spheres achieved. -/
theorem pack_trisos_failure_witness :
    pack_trisos (0 : ℕ) 0 1 (1/8) (7/10) 3 = .error ⟨0⟩ :=
  (pack_trisos_failure (0 : ℕ) 0 1 (1/8) (7/10) 3).1 (by norm_num)

/-- C7: two calls to `pack_trisos` with an identical explicit seed (and the
same fill, domain, radius, target fraction, and attempt budget) produce
identical sphere sequences. -/
theorem pack_trisos_deterministic {U : Type} (fillU : U) (s1 s2 : Nat)
    (L r fraction : ℚ) (maxAttempts : Nat) (h : s1 = s2) :
    pack_trisos fillU s1 L r fraction maxAttempts =
      pack_trisos fillU s2 L r fraction maxAttempts := by
  rw [h]

/-- Witness for C7: repeating the demonstration run with the same seed 0
reproduces it. -/
theorem pack_trisos_deterministic_witness :
    pack_trisos (0 : ℕ) 0 1 (1/8) (1/50) 3 = pack_trisos (0 : ℕ) 0 1 (1/8) (1/50) 3 :=
  pack_trisos_deterministic (0 : ℕ) 0 0 1 (1/8) (1/50) 3 rfl

/-- C10: every element of a `pack_trisos` result is a Cell filled with the
single universe passed as the fill argument, whose spherical region has the
given outer radius, and whose translation is the sphere's center exposed as
the `center` attribute — so all output particles share one fill and differ
only by translation. -/
theorem pack_trisos_elements {U : Type} (fillU : U) (seed : Nat) (L r fraction : ℚ)
    (maxAttempts : Nat) (ts : List (TrisoCell U))
    (h : pack_trisos fillU seed L r fraction maxAttempts = .ok ts) :
    ∀ t ∈ ts, t.fill = fillU ∧ t.regionRadius = r ∧ t.center = t.translation := by
  obtain ⟨cs, hcs, rfl⟩ := pack_trisos_ok_elim fillU seed L r fraction maxAttempts ts h
  intro t ht
  rw [List.mem_map] at ht
  obtain ⟨c, _, rfl⟩ := ht
  exact ⟨rfl, rfl, rfl⟩

/-- Witness for C10: the first particle of the demonstration run carries
fill 0, radius 1/8, and its center as translation. -/
theorem pack_trisos_elements_witness :
    (⟨0, 1/8, demoC1⟩ : TrisoCell ℕ).fill = 0 ∧
      (⟨0, 1/8, demoC1⟩ : TrisoCell ℕ).regionRadius = 1/8 ∧
      (⟨0, 1/8, demoC1⟩ : TrisoCell ℕ).center =
        (⟨0, 1/8, demoC1⟩ : TrisoCell ℕ).translation :=
  pack_trisos_elements (0 : ℕ) 0 1 (1/8) (1/50) 3 demoTrisos demoPack_eq
    ⟨0, 1/8, demoC1⟩ (by simp [demoTrisos])

/-! ### Lattice binner lemmas -/

theorem cellShift_add_sub (s v : Vec3) : s + (v - s) = v := by
  cases s; cases v
  simp [Vec3.add_def, Vec3.sub_def]

theorem localize_inj {U : Type} (ll pitch : Vec3) (idx : ℤ × ℤ × ℤ)
    (t1 t2 : TrisoCell U) (h : localize ll pitch idx t1 = localize ll pitch idx t2) :
    t1 = t2 := by
  cases t1 with
  | mk f1 r1 v1 =>
    cases t2 with
    | mk f2 r2 v2 =>
      simp only [localize, TrisoCell.mk.injEq] at h ⊢
      obtain ⟨hf, hr, hv⟩ := h
      refine ⟨hf, hr, ?_⟩
      cases v1; cases v2
      simp only [Vec3.sub_def, Vec3.mk.injEq] at hv ⊢
      obtain ⟨ha, hb, hc⟩ := hv
      exact ⟨by linarith, by linarith, by linarith⟩

theorem mem_binCell {U : Type} (ll pitch : Vec3) (idx : ℤ × ℤ × ℤ) :
    ∀ (ts : List (TrisoCell U)) (u : TrisoCell U),
      u ∈ binCell ll pitch idx ts ↔
        ∃ t ∈ ts, cellIndex ll pitch t.translation = idx ∧ u = localize ll pitch idx t := by
  intro ts
  induction ts with
  | nil => intro u; simp [binCell]
  | cons t ts ih =>
    intro u
    by_cases h : cellIndex ll pitch t.translation = idx
    · simp only [binCell, if_pos h, List.mem_cons, ih]
      constructor
      · rintro (rfl | ⟨t2, ht2, hidx2, rfl⟩)
        · exact ⟨t, Or.inl rfl, h, rfl⟩
        · exact ⟨t2, Or.inr ht2, hidx2, rfl⟩
      · rintro ⟨t2, (rfl | ht2), hidx2, rfl⟩
        · exact Or.inl rfl
        · exact Or.inr ⟨t2, ht2, hidx2, rfl⟩
    · simp only [binCell, if_neg h, ih]
      constructor
      · rintro ⟨t2, ht2, hidx2, rfl⟩
        exact ⟨t2, List.mem_cons_of_mem _ ht2, hidx2, rfl⟩
      · rintro ⟨t2, ht2, hidx2, rfl⟩
        rcases List.mem_cons.mp ht2 with rfl | ht2
        · exact absurd hidx2 h
        · exact ⟨t2, ht2, hidx2, rfl⟩

theorem binCell_length_cons {U : Type} (ll pitch : Vec3) (idx : ℤ × ℤ × ℤ)
    (t : TrisoCell U) (ts : List (TrisoCell U)) :
    (binCell ll pitch idx (t :: ts)).length =
      (if cellIndex ll pitch t.translation = idx then 1 else 0) +
        (binCell ll pitch idx ts).length := by
  by_cases h : cellIndex ll pitch t.translation = idx
  · simp [binCell, if_pos h]
    omega
  · simp [binCell, if_neg h]

theorem sum_map_add {α : Type} (l : List α) (f g : α → ℕ) :
    (l.map fun a => f a + g a).sum = (l.map f).sum + (l.map g).sum := by
  induction l with
  | nil => simp
  | cons a l ih => simp [ih]; omega

theorem sum_map_indicator_of_not_mem {β : Type} [DecidableEq β] (b : β) (ds : List β)
    (h : b ∉ ds) : (ds.map fun d => if b = d then (1 : ℕ) else 0).sum = 0 := by
  induction ds with
  | nil => simp
  | cons d ds ih =>
    have hbd : b ≠ d := fun hb => h (hb ▸ List.mem_cons_self d ds)
    have hbs : b ∉ ds := fun hb => h (List.mem_cons_of_mem d hb)
    simp [if_neg hbd, ih hbs]

theorem sum_map_indicator_of_mem {β : Type} [DecidableEq β] (b : β) (ds : List β)
    (hnd : ds.Nodup) (hb : b ∈ ds) :
    (ds.map fun d => if b = d then (1 : ℕ) else 0).sum = 1 := by
  induction ds with
  | nil => cases hb
  | cons d ds ih =>
    rw [List.nodup_cons] at hnd
    rcases List.mem_cons.mp hb with rfl | hb2
    · rw [List.map_cons, if_pos rfl, List.sum_cons,
        sum_map_indicator_of_not_mem b ds hnd.1]
    · have hbd : b ≠ d := fun hb3 => hnd.1 (hb3 ▸ hb2)
      rw [List.map_cons, if_neg hbd, List.sum_cons, ih hnd.2 hb2]

theorem sum_binCell_lengths {U : Type} (ll pitch : Vec3) :
    ∀ (ts : List (TrisoCell U)) (ds : List (ℤ × ℤ × ℤ)), ds.Nodup →
      (∀ t ∈ ts, cellIndex ll pitch t.translation ∈ ds) →
      (ds.map fun idx => (binCell ll pitch idx ts).length).sum = ts.length := by
  intro ts
  induction ts with
  | nil =>
    intro ds _ _
    simp [binCell]
  | cons t ts ih =>
    intro ds hnd hmem
    simp only [binCell_length_cons]
    rw [sum_map_add, sum_map_indicator_of_mem _ ds hnd (hmem t (List.mem_cons_self t ts)),
      ih ds hnd (fun t2 ht2 => hmem t2 (List.mem_cons_of_mem t ht2))]
    simp [Nat.add_comm]

theorem mem_allIndices (shape : Nat × Nat × Nat) (idx : ℤ × ℤ × ℤ) :
    idx ∈ allIndices shape ↔ idxInRange shape idx := by
  obtain ⟨a, b, c⟩ := idx
  simp only [allIndices, List.mem_flatMap, List.mem_map, List.mem_range, idxInRange]
  constructor
  · rintro ⟨i, hi, j, hj, k, hk, heq⟩
    rw [Prod.mk.injEq, Prod.mk.injEq] at heq
    obtain ⟨rfl, rfl, rfl⟩ := heq
    refine ⟨by omega, by omega, by omega, by omega, by omega, by omega⟩
  · rintro ⟨h1, h2, h3, h4, h5, h6⟩
    refine ⟨a.toNat, by omega, b.toNat, by omega, c.toNat, by omega, ?_⟩
    rw [Prod.mk.injEq, Prod.mk.injEq]
    exact ⟨Int.toNat_of_nonneg h1, Int.toNat_of_nonneg h3, Int.toNat_of_nonneg h5⟩

theorem nodup_allIndices (shape : Nat × Nat × Nat) : (allIndices shape).Nodup := by
  unfold allIndices
  rw [List.nodup_flatMap]
  constructor
  · intro i _
    rw [List.nodup_flatMap]
    constructor
    · intro j _
      refine (List.nodup_range _).map ?_
      intro k1 k2 hk
      rw [Prod.mk.injEq, Prod.mk.injEq] at hk
      exact_mod_cast hk.2.2
    · refine (List.nodup_range _).imp ?_
      intro j1 j2 hne x hx1 hx2
      rw [List.mem_map] at hx1 hx2
      obtain ⟨k1, _, rfl⟩ := hx1
      obtain ⟨k2, _, heq⟩ := hx2
      rw [Prod.mk.injEq, Prod.mk.injEq] at heq
      exact hne (by exact_mod_cast heq.2.1.symm)
  · refine (List.nodup_range _).imp ?_
    intro i1 i2 hne x hx1 hx2
    rw [List.mem_flatMap] at hx1 hx2
    obtain ⟨j1, _, hm1⟩ := hx1
    obtain ⟨j2, _, hm2⟩ := hx2
    rw [List.mem_map] at hm1 hm2
    obtain ⟨k1, _, rfl⟩ := hm1
    obtain ⟨k2, _, heq⟩ := hm2
    rw [Prod.mk.injEq, Prod.mk.injEq] at heq
    exact hne (by exact_mod_cast heq.1.symm)

theorem create_triso_lattice_ok_elim {U : Type} (trisos : List (TrisoCell U))
    (ll pitch : Vec3) (shape : Nat × Nat × Nat) (bg : U) (A : LatticeAssignment U)
    (h : create_triso_lattice trisos ll pitch shape bg = .ok A) :
    A = ⟨shape, (allIndices shape).map (fun idx => ⟨idx, binCell ll pitch idx trisos, bg⟩)⟩ ∧
      ∀ t ∈ trisos, idxInRange shape (cellIndex ll pitch t.translation) := by
  unfold create_triso_lattice at h
  split at h
  · rename_i hcond
    cases h
    exact ⟨rfl, hcond⟩
  · cases h

/-! ### Concrete demonstration run of the lattice binner -/

theorem demoIdx1 : cellIndex demoLL demoPitch demoC1 = (0, 1, 1) := by
  norm_num [cellIndex, demoLL, demoPitch, demoC1]

theorem demoIdx2 : cellIndex demoLL demoPitch demoC3 = (1, 0, 0) := by
  norm_num [cellIndex, demoLL, demoPitch, demoC3]

theorem demoAllIndices : allIndices (2, 2, 2) =
    [(0,0,0), (0,0,1), (0,1,0), (0,1,1), (1,0,0), (1,0,1), (1,1,0), (1,1,1)] := by
  rfl

theorem demoLattice_eq :
    create_triso_lattice demoTrisos demoLL demoPitch (2, 2, 2) 7 = .ok demoAssign := by
  have hcond : ∀ t ∈ demoTrisos, idxInRange (2, 2, 2) (cellIndex demoLL demoPitch t.translation) := by
    norm_num [demoTrisos, demoIdx1, demoIdx2, idxInRange]
  unfold create_triso_lattice
  rw [if_pos hcond, demoAllIndices]
  simp only [List.map_cons, List.map_nil, binCell, demoTrisos, demoIdx1, demoIdx2,
    Prod.mk.injEq]
  norm_num [localize, cellShift, demoLL, demoPitch, demoC1, demoC3, Vec3.sub_def, demoAssign]

theorem cexIdx : cellIndex cexLL cexPitch cexTriso.translation = (0, 0, 0) := by
  norm_num [cellIndex, cexLL, cexPitch, cexTriso]

theorem cexAllIndices : allIndices (2, 1, 1) = [(0, 0, 0), (1, 0, 0)] := by
  rfl

/-! ### Claims about the lattice binner -/

/-- C3: for every sphere placed in a cell of the lattice assignment, the
cell-local coordinate transform is exactly invertible: the local center is
`center − (lowerLeft + index ⊙ pitch)` for a sphere of the input, and
`lowerLeft + index ⊙ pitch + localCenter` recovers that sphere's original
center exactly, componentwise. -/
theorem lattice_roundtrip {U : Type} (trisos : List (TrisoCell U)) (ll pitch : Vec3)
    (shape : Nat × Nat × Nat) (bg : U) (A : LatticeAssignment U)
    (h : create_triso_lattice trisos ll pitch shape bg = .ok A) :
    ∀ e ∈ A.cells, ∀ u ∈ e.spheres, ∃ t ∈ trisos,
      u.translation = t.translation - cellShift ll pitch e.index ∧
      cellShift ll pitch e.index + u.translation = t.translation := by
  obtain ⟨hA, hrange⟩ := create_triso_lattice_ok_elim trisos ll pitch shape bg A h
  subst hA
  intro e he u hu
  rw [List.mem_map] at he
  obtain ⟨idx, hidx, rfl⟩ := he
  rw [mem_binCell] at hu
  obtain ⟨t, ht, hidx2, rfl⟩ := hu
  exact ⟨t, ht, rfl, cellShift_add_sub _ _⟩

/-- Witness for C3: the localized sphere stored in cell (0,1,1) of the
demonstration lattice recovers its original center under the cell shift. -/
theorem lattice_roundtrip_witness :
    ∃ t ∈ demoTrisos,
      (⟨0, 1/8, ⟨31/128, 9/32, 9/64⟩⟩ : TrisoCell ℕ).translation =
        t.translation - cellShift demoLL demoPitch (0, 1, 1) ∧
      cellShift demoLL demoPitch (0, 1, 1) +
        (⟨0, 1/8, ⟨31/128, 9/32, 9/64⟩⟩ : TrisoCell ℕ).translation = t.translation :=
  lattice_roundtrip demoTrisos demoLL demoPitch (2, 2, 2) 7 demoAssign demoLattice_eq
    ⟨(0, 1, 1), [⟨0, 1/8, ⟨31/128, 9/32, 9/64⟩⟩], 7⟩ (by simp [demoAssign])
    ⟨0, 1/8, ⟨31/128, 9/32, 9/64⟩⟩ (by simp)

/-- C5 counterexample: a sphere of radius 1/5 centered at (9/10, 1/2, 1/2)
in a 2×1×1 lattice of unit pitch geometrically intersects cell (1, 0, 0)
(it protrudes past the plane x = 1), yet the returned assignment holds it
only in cell (0, 0, 0) and leaves the sphere list of cell (1, 0, 0) empty —
so the binner does not assign spheres to every cell their extent
intersects. -/
theorem lattice_extent_cex :
    create_triso_lattice [cexTriso] cexLL cexPitch (2, 1, 1) 7 =
      .ok ⟨(2, 1, 1), [⟨(0, 0, 0), [cexTriso], 7⟩, ⟨(1, 0, 0), [], 7⟩]⟩ ∧
    sphereIntersectsCell cexLL cexPitch (1, 0, 0) cexTriso.regionRadius
      cexTriso.translation := by
  constructor
  · have hcond : ∀ t ∈ [cexTriso],
        idxInRange (2, 1, 1) (cellIndex cexLL cexPitch t.translation) := by
      norm_num [cexIdx, idxInRange]
    unfold create_triso_lattice
    rw [if_pos hcond, cexAllIndices]
    simp only [List.map_cons, List.map_nil, binCell, cexIdx, Prod.mk.injEq]
    norm_num [localize, cellShift, cexLL, cexPitch, cexTriso, Vec3.sub_def]
  · norm_num [sphereIntersectsCell, nearestPointInCell, clampQ, dist2, cexLL, cexPitch,
      cexTriso]

/-- C5 (amended): the lattice assignment places each sphere in exactly one
cell — the cell whose index is the floor division of its center — not in
every cell its extent intersects: a sphere's localized copy belongs to a
cell's sub-list if and only if that cell's index equals the sphere's
center-derived cell index. -/
theorem lattice_assignment_by_center {U : Type} (trisos : List (TrisoCell U))
    (ll pitch : Vec3) (shape : Nat × Nat × Nat) (bg : U) (A : LatticeAssignment U)
    (h : create_triso_lattice trisos ll pitch shape bg = .ok A) :
    ∀ t ∈ trisos, ∀ e ∈ A.cells,
      (localize ll pitch e.index t ∈ e.spheres ↔
        cellIndex ll pitch t.translation = e.index) := by
  obtain ⟨hA, hrange⟩ := create_triso_lattice_ok_elim trisos ll pitch shape bg A h
  subst hA
  intro t ht e he
  rw [List.mem_map] at he
  obtain ⟨idx, hidx, rfl⟩ := he
  constructor
  · intro hmem
    rw [mem_binCell] at hmem
    obtain ⟨t2, _, hidx2, heq⟩ := hmem
    rwa [localize_inj ll pitch idx t2 t heq.symm] at hidx2
  · intro hidx2
    rw [mem_binCell]
    exact ⟨t, ht, hidx2, rfl⟩

/-- Witness for C5 (amended): on the demonstration lattice the first sphere's
localized copy sits in cell (0,1,1) exactly because that is its center's
cell index. -/
theorem lattice_assignment_by_center_witness :
    localize demoLL demoPitch (0, 1, 1) ⟨0, 1/8, demoC1⟩ ∈
        [(⟨0, 1/8, ⟨31/128, 9/32, 9/64⟩⟩ : TrisoCell ℕ)] ↔
      cellIndex demoLL demoPitch demoC1 = (0, 1, 1) :=
  lattice_assignment_by_center demoTrisos demoLL demoPitch (2, 2, 2) 7 demoAssign
    demoLattice_eq ⟨0, 1/8, demoC1⟩ (by simp [demoTrisos])
    ⟨(0, 1, 1), [⟨0, 1/8, ⟨31/128, 9/32, 9/64⟩⟩], 7⟩ (by simp [demoAssign])

/-- C6: the per-cell sphere sub-lists partition the packed spheres: the
per-cell counts sum to the total packed count, every sphere lands in the
cell of its center (computed by componentwise floor division of
`center − lowerLeft` by `pitch`), and no sphere appears in two cells. -/
theorem lattice_partition {U : Type} (trisos : List (TrisoCell U)) (ll pitch : Vec3)
    (shape : Nat × Nat × Nat) (bg : U) (A : LatticeAssignment U)
    (h : create_triso_lattice trisos ll pitch shape bg = .ok A) :
    ((A.cells.map (fun e => e.spheres.length)).sum = trisos.length) ∧
    (∀ t ∈ trisos, ∃ e ∈ A.cells, e.index = cellIndex ll pitch t.translation ∧
      localize ll pitch e.index t ∈ e.spheres) ∧
    (∀ t ∈ trisos, ∀ e1 ∈ A.cells, ∀ e2 ∈ A.cells,
      localize ll pitch e1.index t ∈ e1.spheres →
      localize ll pitch e2.index t ∈ e2.spheres → e1 = e2) := by
  obtain ⟨hA, hrange⟩ := create_triso_lattice_ok_elim trisos ll pitch shape bg A h
  subst hA
  refine ⟨?_, ?_, ?_⟩
  · rw [List.map_map]
    exact sum_binCell_lengths ll pitch trisos (allIndices shape) (nodup_allIndices shape)
      (fun t ht => (mem_allIndices shape _).mpr (hrange t ht))
  · intro t ht
    refine ⟨⟨cellIndex ll pitch t.translation,
      binCell ll pitch (cellIndex ll pitch t.translation) trisos, bg⟩, ?_, rfl, ?_⟩
    · rw [List.mem_map]
      exact ⟨cellIndex ll pitch t.translation,
        (mem_allIndices shape _).mpr (hrange t ht), rfl⟩
    · rw [mem_binCell]
      exact ⟨t, ht, rfl, rfl⟩
  · intro t ht e1 he1 e2 he2 h1 h2
    rw [List.mem_map] at he1 he2
    obtain ⟨i1, hi1, rfl⟩ := he1
    obtain ⟨i2, hi2, rfl⟩ := he2
    rw [mem_binCell] at h1 h2
    obtain ⟨t1, _, hidx1, heq1⟩ := h1
    obtain ⟨t2, _, hidx2, heq2⟩ := h2
    rw [localize_inj ll pitch i1 t1 t heq1.symm] at hidx1
    rw [localize_inj ll pitch i2 t2 t heq2.symm] at hidx2
    rw [← hidx1, ← hidx2]

/-- Witness for C6: on the demonstration lattice the 8 per-cell counts sum
to 2, the number of packed spheres. -/
theorem lattice_partition_witness :
    ((demoAssign.cells.map (fun e => e.spheres.length)).sum = demoTrisos.length) ∧
    (∀ t ∈ demoTrisos, ∃ e ∈ demoAssign.cells,
      e.index = cellIndex demoLL demoPitch t.translation ∧
      localize demoLL demoPitch e.index t ∈ e.spheres) ∧
    (∀ t ∈ demoTrisos, ∀ e1 ∈ demoAssign.cells, ∀ e2 ∈ demoAssign.cells,
      localize demoLL demoPitch e1.index t ∈ e1.spheres →
      localize demoLL demoPitch e2.index t ∈ e2.spheres → e1 = e2) :=
  lattice_partition demoTrisos demoLL demoPitch (2, 2, 2) 7 demoAssign demoLattice_eq

/-- C8: `create_triso_lattice` fails with `OutOfLatticeBoundsError` exactly
when some sphere's cell index — the componentwise floor division of
`center − lowerLeft` by `pitch` — falls outside `[0, shape)` on some axis;
on failure no assignment is produced, and any produced assignment certifies
that every sphere's index was in range. -/
theorem lattice_out_of_bounds {U : Type} (trisos : List (TrisoCell U)) (ll pitch : Vec3)
    (shape : Nat × Nat × Nat) (bg : U) :
    (create_triso_lattice trisos ll pitch shape bg = .error .mk ↔
      ∃ t ∈ trisos, ¬ idxInRange shape (cellIndex ll pitch t.translation)) ∧
    (∀ A, create_triso_lattice trisos ll pitch shape bg = .ok A →
      ∀ t ∈ trisos, idxInRange shape (cellIndex ll pitch t.translation)) := by
  by_cases hc : ∀ t ∈ trisos, idxInRange shape (cellIndex ll pitch t.translation)
  · constructor
    · unfold create_triso_lattice
      rw [if_pos hc]
      refine iff_of_false (by simp) ?_
      rintro ⟨t, ht, hn⟩
      exact hn (hc t ht)
    · intro A _ t ht
      exact hc t ht
  · constructor
    · unfold create_triso_lattice
      rw [if_neg hc]
      push_neg at hc
      exact iff_of_true rfl hc
    · intro A hA
      unfold create_triso_lattice at hA
      rw [if_neg hc] at hA
      cases hA

/-- Witness for C8: a sphere centered at (5/2, 1/2, 1/2) has cell index
(2, 0, 0), outside a 1×1×1 lattice at the origin, so the binner reports
`OutOfLatticeBoundsError`. -/
theorem lattice_out_of_bounds_witness :
    create_triso_lattice [oobTriso] cexLL cexPitch (1, 1, 1) 7 = .error .mk :=
  (lattice_out_of_bounds [oobTriso] cexLL cexPitch (1, 1, 1) 7).1.mpr
    ⟨oobTriso, by simp, by norm_num [idxInRange, cellIndex, cexLL, cexPitch, oobTriso]⟩

/-- C9: every cell index in `[0, shape)` on every axis is represented in a
produced lattice assignment, each entry carries the background fill, and a
cell whose sphere sub-list is empty is filled entirely with the background
fill. -/
theorem lattice_covers {U : Type} (trisos : List (TrisoCell U)) (ll pitch : Vec3)
    (shape : Nat × Nat × Nat) (bg : U) (A : LatticeAssignment U)
    (h : create_triso_lattice trisos ll pitch shape bg = .ok A) :
    ∀ idx, idxInRange shape idx →
      ∃ e ∈ A.cells, e.index = idx ∧ e.background = bg ∧
        (e.spheres = [] → e = ⟨idx, [], bg⟩) := by
  obtain ⟨hA, hrange⟩ := create_triso_lattice_ok_elim trisos ll pitch shape bg A h
  subst hA
  intro idx hidx
  refine ⟨⟨idx, binCell ll pitch idx trisos, bg⟩, ?_, rfl, rfl, ?_⟩
  · rw [List.mem_map]
    exact ⟨idx, (mem_allIndices shape idx).mpr hidx, rfl⟩
  · intro hs
    simp only at hs
    simp [CellEntry.mk.injEq, hs]

/-- Witness for C9: cell index (0,0,0) is represented in the demonstration
lattice, over background fill 7. -/
theorem lattice_covers_witness :
    ∃ e ∈ demoAssign.cells, e.index = (0, 0, 0) ∧ e.background = 7 ∧
      (e.spheres = [] → e = ⟨(0, 0, 0), [], 7⟩) :=
  lattice_covers demoTrisos demoLL demoPitch (2, 2, 2) 7 demoAssign demoLattice_eq
    (0, 0, 0) (by norm_num [idxInRange])
